import Mathlib

/-
Verification of the lzma-rust2 LZMA/LZMA2/LZIP codec specification against
a shallow embedding of the repository's source.

Bytes are modelled as `Nat` (with explicit `% 256` truncation wherever the
source casts to `u8`), `u32`/`u64` arithmetic as `Nat` (overflow cannot occur
on the embedded paths; wherever a cast truncates, an explicit `% 2^w` or
`&&&` mask appears).  Fallible code returns `Except Error`.
-/

set_option autoImplicit false

namespace LzmaRust

/-- The error type of the crate, from `src/no_std.rs` (`enum Error`).  The
multi-threaded writer uses `std::io::Error` instead; its additional
`BrokenPipe` kind is included here so that error identities stay distinct. -/
inductive Error where
  | eof
  | interrupted
  | invalidData (msg : String)
  | invalidInput (msg : String)
  | outOfMemory (msg : String)
  | other (msg : String)
  | unsupported (msg : String)
  | writeZero (msg : String)
  | brokenPipe (msg : String)
deriving DecidableEq, Repr

deriving instance DecidableEq for Except

/-- Returns `true` exactly on `Except.ok`. -/
def isOk {α : Type} : Except Error α → Bool
  | .ok _ => true
  | .error _ => false

/-- Returns `true` exactly when the result is an `InvalidData` error. -/
def isInvalidData {α : Type} : Except Error α → Bool
  | .error (.invalidData _) => true
  | _ => false

/-- Returns `true` exactly when the result is an `InvalidInput` error. -/
def isInvalidInput {α : Type} : Except Error α → Bool
  | .error (.invalidInput _) => true
  | _ => false

/-- Minimum LZIP dictionary size (4 KiB), `MIN_DICT_SIZE` in `src/lzip.rs`. -/
def MIN_DICT_SIZE : Nat := 4 * 1024

/-- Maximum LZIP dictionary size (512 MiB), `MAX_DICT_SIZE` in `src/lzip.rs`. -/
def MAX_DICT_SIZE : Nat := 512 * 1024 * 1024

/-- Translation of `decode_dict_size` from `src/lzip.rs`: bits 4..0 of the
encoded byte give the base-2 logarithm of the base size, bits 7..5 the
numerator of the fraction subtracted from it. -/
def decode_dict_size (encoded : Nat) : Except Error Nat :=
  let base_log2 := encoded &&& 0x1F
  let fraction_num := encoded >>> 5
  if base_log2 < 12 || base_log2 > 29 then
    .error (.invalidData "invalid LZIP dictionary size base")
  else if fraction_num > 7 then
    .error (.invalidData "invalid LZIP dictionary size fraction")
  else
    let base_size := 1 <<< base_log2
    let fraction_size := if base_log2 ≥ 4 then (base_size >>> 4) * fraction_num else 0
    let dict_size := base_size - fraction_size
    if dict_size < MIN_DICT_SIZE || dict_size > MAX_DICT_SIZE then
      .error (.invalidData "LZIP dictionary size out of range")
    else
      .ok dict_size

/-- Returns `true` when an ok-result satisfies the given bound check
(vacuously `true` on errors). -/
def okInDictRange (r : Except Error Nat) : Bool :=
  match r with
  | .ok v => decide (4 * 1024 ≤ v ∧ v ≤ 512 * 1024 * 1024)
  | .error _ => true

/-- The part of the `LZMAWriter` state (`src/enc/lzma_writer.rs`) that the
uncompressed-size bookkeeping touches.  The encoder internals (`lzma`, `rc`,
`mode`) are irrelevant to the size checks and are abstracted away; `consumed`
is a ghost field recording every byte the writer has accepted, so that
"fails before consuming any byte" is expressible as state equality. -/
structure LZMAWriterSizes where
  currentUncompressedSize : Nat
  expectedUncompressedSize : Option Nat
  consumed : List Nat
deriving DecidableEq, Repr

/-- Translation of `LZMAWriter::write` (`src/enc/lzma_writer.rs`): when an
expected uncompressed size is set and the call would push the cumulative
input past it, the call fails with `InvalidInput` before touching any state;
otherwise the whole buffer is consumed (the source loop runs `fill_window` /
`encode_for_lzma1` until `len.eq.0` and returns `Ok(buf.len())`). -/
def lzmaWriterWrite (st : LZMAWriterSizes) (buf : List Nat) :
    Except Error Nat × LZMAWriterSizes :=
  let shouldFail :=
    match st.expectedUncompressedSize with
    | some exp => decide (exp < st.currentUncompressedSize + buf.length)
    | none => false
  if shouldFail then
    (.error (.invalidInput
        "expected compressed size does not match actual compressed size"), st)
  else
    (.ok buf.length,
     { st with
        currentUncompressedSize := st.currentUncompressedSize + buf.length,
        consumed := st.consumed ++ buf })

/-- Translation of the size check of `LZMAWriter::finish`
(`src/enc/lzma_writer.rs`): with an expected uncompressed size set, finish
fails with `InvalidInput` whenever the total written differs from it.  The
subsequent flushing of the encoder and range coder is abstracted away. -/
def lzmaWriterFinish (st : LZMAWriterSizes) : Except Error Unit :=
  match st.expectedUncompressedSize with
  | some exp =>
      if exp ≠ st.currentUncompressedSize then
        .error (.invalidInput
          "expected compressed size does not match actual compressed size")
      else .ok ()
  | none => .ok ()

/-- `COMPRESSED_SIZE_MAX` from `src/enc/lzma2_writer.rs` (64 KiB, the cap on
a chunk's range-coder buffer and on an uncompressed chunk's size). -/
def COMPRESSED_SIZE_MAX : Nat := 64 <<< 10

/-- `LZMAOptions::get_props` from `src/enc/lzma2_writer.rs`:
`((pb * 5 + lp) * 9 + lc) as u8`. -/
def get_props (pb lp lc : Nat) : Nat := ((pb * 5 + lp) * 9 + lc) % 256

/-- The chunk-framing flags of `LZMA2Writer` (`src/enc/lzma2_writer.rs`),
together with the cached properties byte. -/
structure LZMA2Flags where
  props : Nat
  dict_reset_needed : Bool
  state_reset_needed : Bool
  props_needed : Bool
deriving DecidableEq, Repr

/-- The flag state established by `LZMA2Writer::new`: without a preset
dictionary all of `dict_reset_needed`, `state_reset_needed`, `props_needed`
start `true`; a preset dictionary clears only `dict_reset_needed`. -/
def lzma2InitFlags (pb lp lc : Nat) (presetDict : Bool) : LZMA2Flags :=
  { props := get_props pb lp lc
    dict_reset_needed := !presetDict
    state_reset_needed := true
    props_needed := true }

/-- The reset level encoded in bits 6:5 of an LZMA chunk's control byte, as
`LZMA2Writer::write_lzma` selects it from the flags. -/
def lzma2ResetLevel (st : LZMA2Flags) : Nat :=
  if st.props_needed then (if st.dict_reset_needed then 3 else 2)
  else if st.state_reset_needed then 1 else 0

/-- Translation of `LZMA2Writer::write_lzma` (`src/enc/lzma2_writer.rs`):
emits the 5- or 6-byte chunk header followed by the finished range-coder
buffer `C` (whose length is the compressed size), then clears all reset
flags. -/
def write_lzma (st : LZMA2Flags) (uncompressed_size : Nat) (C : List Nat) :
    List Nat × LZMA2Flags :=
  let compressed_size := C.length
  let control0 : Nat :=
    if st.props_needed then
      if st.dict_reset_needed then 0x80 + (3 <<< 5) else 0x80 + (2 <<< 5)
    else if st.state_reset_needed then 0x80 + (1 <<< 5)
    else 0x80
  let control := control0 ||| ((uncompressed_size - 1) >>> 16)
  let header :=
    [control % 256,
     ((uncompressed_size - 1) >>> 8) % 256,
     (uncompressed_size - 1) % 256,
     ((compressed_size - 1) >>> 8) % 256,
     (compressed_size - 1) % 256]
  let header := if st.props_needed then header ++ [st.props] else header
  (header ++ C,
   { st with props_needed := false, state_reset_needed := false,
             dict_reset_needed := false })

/-- Translation of `LZMA2Writer::write_uncompressed` (`src/enc/lzma2_writer.rs`):
splits the pending bytes `P` into chunks of at most `COMPRESSED_SIZE_MAX`,
each preceded by its 3-byte header; the control byte is `0x01` while a
dictionary reset is pending and `0x02` afterwards.  Returns the emitted bytes
and the final `dict_reset_needed` flag (the source clears it after the first
chunk; the trailing `state_reset_needed := true` happens in the caller's
model `write_chunk`). -/
def write_uncompressed (dict_reset_needed : Bool) (P : List Nat) :
    List Nat × Bool :=
  if _hP : P.length = 0 then ([], dict_reset_needed)
  else
    (((if dict_reset_needed then 0x01 else 0x02) ::
        [((min P.length COMPRESSED_SIZE_MAX - 1) >>> 8) % 256,
         (min P.length COMPRESSED_SIZE_MAX - 1) % 256])
      ++ P.take (min P.length COMPRESSED_SIZE_MAX)
      ++ (write_uncompressed false (P.drop (min P.length COMPRESSED_SIZE_MAX))).1,
     (write_uncompressed false (P.drop (min P.length COMPRESSED_SIZE_MAX))).2)
termination_by P.length
decreasing_by
  all_goals
    simp only [List.length_drop]
    have hCSM : COMPRESSED_SIZE_MAX = 65536 := rfl
    omega

/-- Translation of `LZMA2Writer::write_chunk` (`src/enc/lzma2_writer.rs`):
`C` is the finished range-coder buffer (compressed form of the pending bytes
`P`).  When `C.length + 2 < P.length` the compressed chunk is emitted via
`write_lzma`; otherwise the compressed form is discarded and `P` is emitted
uncompressed, the encoder is reset (recorded in the ghost `Bool`), and a
state reset is marked for the next LZMA chunk. -/
def write_chunk (st : LZMA2Flags) (P C : List Nat) :
    List Nat × LZMA2Flags × Bool :=
  if C.length + 2 < P.length then
    let r := write_lzma st P.length C
    (r.1, r.2, false)
  else
    let r := write_uncompressed st.dict_reset_needed P
    (r.1, { st with dict_reset_needed := r.2, state_reset_needed := true },
     true)

/-- The uncompressed-chunk layout as the C4 claim words it: each segment is
emitted as a control byte (`0x01` for the first chunk while a dictionary
reset is pending, `0x02` otherwise) followed by the 2-byte big-endian
`chunk_size - 1` and the segment's bytes. -/
def renderUncompSegs (dictReset : Bool) (segs : List (List Nat)) : List Nat :=
  match segs with
  | [] => []
  | s :: rest =>
      ((if dictReset then 0x01 else 0x02) ::
        [((s.length - 1) >>> 8) % 256, (s.length - 1) % 256])
      ++ s ++ renderUncompSegs false rest

/-- `DICT_SIZE_MAX` from `src/lib.rs`: `u32::MAX & !15_u32 = 0xFFFFFFF0`. -/
def DICT_SIZE_MAX : Nat := 0xFFFFFFF0

/-- `u64::MAX`. -/
def U64_MAX : Nat := 2 ^ 64 - 1

/-- Translation of `get_dict_size` from `src/lzma_reader.rs`: rejects
dictionaries above `DICT_SIZE_MAX` with `InvalidInput`, otherwise clamps to
at least 4096 and rounds up to a multiple of 16 (`(dict_size + 15) & !15`). -/
def lzma_get_dict_size (dict_size : Nat) : Except Error Nat :=
  if dict_size > DICT_SIZE_MAX then
    .error (.invalidInput "dict size too large")
  else
    .ok ((max dict_size 4096 + 15) &&& 0xFFFFFFF0)

/-- Modelled from the spec: `RangeDecoder::new_stream` lives in the crate's
`range_dec` module, which is not among the provided sources.  Spec section 3:
the decoder is "initialised by consuming the first byte (which must be 0)
then four bytes of `code`"; a short source is an `EOF` error (spec section
7), a nonzero first byte malformed bitstream data (`InvalidData`). -/
def rangeDecoderNewStream (input : List Nat) : Except Error (Nat × List Nat) :=
  match input with
  | b0 :: b1 :: b2 :: b3 :: b4 :: rest =>
      if b0 ≠ 0 then .error (.invalidData "first byte must be 0")
      else .ok ((b1 <<< 24) + (b2 <<< 16) + (b3 <<< 8) + b4, rest)
  | _ => .error .eof

/-- The reader configuration `LZMAReader::construct2` produces
(`src/lzma_reader.rs`).  The LZ window and probability model construction
(`LZDecoder::new`, `LZMADecoder::new`, in modules not among the provided
sources) cannot fail; they are represented by the recorded parameters. -/
structure LZMAReaderCfg where
  lc : Nat
  lp : Nat
  pb : Nat
  dictSize : Nat
  code : Nat
  endReached : Bool
  relaxedEndCond : Bool
  remainingSize : Nat
deriving DecidableEq, Repr

/-- Translation of `LZMAReader::construct2` (`src/lzma_reader.rs`): rejects
`lc > 8 ∨ lp > 4 ∨ pb > 4` with `InvalidInput` (there is no `lc + lp > 4`
check), validates and rounds the dictionary size, shrinks it to the
uncompressed size when that is known and smaller (the `as u32` cast is the
explicit `% 2^32`), then initialises the range decoder from the stream. -/
def construct2 (input : List Nat) (uncomp_size lc lp pb dict_size : Nat) :
    Except Error LZMAReaderCfg :=
  if lc > 8 ∨ lp > 4 ∨ pb > 4 then
    .error (.invalidInput "Invalid lc or lp or pb")
  else do
    let ds0 ← lzma_get_dict_size dict_size
    let ds ←
      if uncomp_size ≤ U64_MAX / 2 ∧ ds0 > uncomp_size then
        lzma_get_dict_size (uncomp_size % 2 ^ 32)
      else pure ds0
    let rc ← rangeDecoderNewStream input
    let lzDict ← lzma_get_dict_size ds
    pure { lc := lc, lp := lp, pb := pb, dictSize := lzDict, code := rc.1,
           endReached := false, relaxedEndCond := true,
           remainingSize := uncomp_size }

/-- One oracle step of the inner decoder machinery during
`LZMAReader::read_decode` (`src/lzma_reader.rs`): the outcome of
`lzma.decode` (`none` means `Ok(())`), whether the decoder has seen the end
marker, how many bytes `lz.flush` copies out, whether the LZ window still
holds pending bytes afterwards, and whether the range coder reports its
stream finished.  These are the observable results of the `decoder`, `lz`
and `range_dec` modules, which are not among the provided sources. -/
structure DecStep where
  decodeError : Option Error
  endMarkerDetected : Bool
  flushCopied : Nat
  hasPending : Bool
  rcStreamFinished : Bool
deriving DecidableEq, Repr

/-- The mutable `LZMAReader` state that `read_decode` touches. -/
structure ReaderLoopState where
  endReached : Bool
  relaxedEndCond : Bool
  remainingSize : Nat
deriving DecidableEq, Repr

/-- The `copy_size_max` computation at the top of the `read_decode` loop
(`src/lzma_reader.rs`), passed to `lz.set_limit`: the flush of one iteration
copies at most this many bytes. -/
def copySizeMax (st : ReaderLoopState) (len : Nat) : Nat :=
  if st.remainingSize ≤ U64_MAX / 2 ∧ st.remainingSize < len
  then st.remainingSize else len

/-- Translation of the loop body of `LZMAReader::read_decode`
(`src/lzma_reader.rs`), consuming one oracle step per iteration.  A decode
error is suppressed (and the stream treated as ended) exactly when the
declared uncompressed size is unknown (`u64::MAX`) and the end marker has
been detected; otherwise it is returned.  When the end is reached, pending
bytes in the LZ window (or, with the relaxed end condition off, an
unfinished range-coder stream) yield `InvalidData`.  `none` = the oracle ran
out of steps (the source loop would keep polling the machinery). -/
def read_loop (st : ReaderLoopState) (steps : List DecStep)
    (len size : Nat) : Option (Except Error Nat × ReaderLoopState) :=
  if len = 0 then some (.ok size, st) else
  match steps with
  | [] => none
  | step :: rest =>
    let dec : Except Error ReaderLoopState :=
      match step.decodeError with
      | none => .ok st
      | some e =>
          if st.remainingSize ≠ U64_MAX ∨ step.endMarkerDetected = false
          then .error e
          else .ok { st with endReached := true }
    match dec with
    | .error e => some (.error e, st)
    | .ok st1 =>
      let copied := step.flushCopied
      let st2 :=
        if st1.remainingSize ≤ U64_MAX / 2 then
          { st1 with
              remainingSize := st1.remainingSize - copied,
              endReached :=
                st1.endReached || decide (st1.remainingSize - copied = 0) }
        else st1
      if st2.endReached then
        if step.hasPending = true ∨
            (st2.relaxedEndCond = false ∧ step.rcStreamFinished = false) then
          some (.error (.invalidData "end reached but not decoder finished"),
                st2)
        else some (.ok (size + copied), st2)
      else read_loop st2 rest (len - copied) (size + copied)

/-- Translation of the entry of `LZMAReader::read_decode`
(`src/lzma_reader.rs`): empty buffers and an already-ended stream read 0
bytes. -/
def read_decode (st : ReaderLoopState) (steps : List DecStep) (bufLen : Nat) :
    Option (Except Error Nat × ReaderLoopState) :=
  if bufLen = 0 then some (.ok 0, st)
  else if st.endReached = true then some (.ok 0, st)
  else read_loop st steps bufLen 0

/-- One bit step of the reflected CRC-32 (polynomial `0xEDB88320`), the
bit-serial specification of `CRC_32_ISO_HDLC` computed by the external `crc`
crate (`src/lzip.rs` instantiates `crc::Crc` with `CRC_32_ISO_HDLC`). -/
def crc32Bit (c : Nat) : Nat :=
  if c % 2 = 1 then (c >>> 1) ^^^ 0xEDB88320 else c >>> 1

/-- Absorb one byte into a CRC-32 accumulator (reflected algorithm). -/
def crc32Byte (c b : Nat) : Nat :=
  (List.range 8).foldl (fun a _ => crc32Bit a) (c ^^^ (b % 256))

/-- CRC-32/ISO-HDLC of a byte list: init `0xFFFFFFFF`, xorout `0xFFFFFFFF`. -/
def crc32 (bs : List Nat) : Nat :=
  (bs.foldl crc32Byte 0xFFFFFFFF) ^^^ 0xFFFFFFFF

/-- Little-endian 4-byte rendering of a `u32` (`ByteWriter::write_u32`). -/
def le32 (x : Nat) : List Nat :=
  [x % 256, (x >>> 8) % 256, (x >>> 16) % 256, (x >>> 24) % 256]

/-- Little-endian 8-byte rendering of a `u64` (`ByteWriter::write_u64`). -/
def le64 (x : Nat) : List Nat :=
  [x % 256, (x >>> 8) % 256, (x >>> 16) % 256, (x >>> 24) % 256,
   (x >>> 32) % 256, (x >>> 40) % 256, (x >>> 48) % 256, (x >>> 56) % 256]

/-- Abstract interface of the inner `LZMAWriter` as `LZIPWriter` uses it
(`src/lzip/writer.rs`); the encoder core lives in modules not among the
provided sources.  Given the bytes accepted so far, `emit` is the compressed
output produced while writing a further slice, and `emitFinish` the bytes
flushed by `LZMAWriter::finish`.  `LZMAWriter::write` consumes its whole
buffer (its loop runs `fill_window` until `len` is 0), so consumption needs
no abstraction. -/
structure LZMAEnc where
  emit : List Nat → List Nat → List Nat
  emitFinish : List Nat → List Nat

/-- State of `LZIPWriter` (`src/lzip/writer.rs`).  The sink bytes are
tracked in `inner` whether the writer currently holds the sink directly or
inside the counting writer wrapped by the LZMA writer; `lzmaAcc` is `some`
exactly while an inner LZMA writer exists and records the bytes it has
accepted; `curComp` mirrors the bytes written through the counting writer
since the member header (its length is the counter `bytes_written`);
`crcDigest` models the `crc` crate's digest as the list of absorbed bytes;
`members` is a ghost log of completed members as (uncompressed bytes,
compressed payload) pairs.  `dictByte` stands for the result of
`encode_dict_size` (not among the provided sources); the dead
`member_start_pos` field is omitted. -/
structure LZIPWriterState where
  inner : List Nat
  lzmaAcc : Option (List Nat)
  curComp : List Nat
  memberSizeOpt : Option Nat
  dictByte : Nat
  headerWritten : Bool
  finished : Bool
  crcDigest : List Nat
  uncompressedSize : Nat
  curMemberUncomp : Nat
  members : List (List Nat × List Nat)
deriving DecidableEq, Repr

/-- `LZIPWriter::new`: fresh state (options validated and clamped by the
caller; `dictByte` abstracts the encoded dictionary-size byte). -/
def lzipNew (db : Nat) (ms : Option Nat) : LZIPWriterState :=
  { inner := [], lzmaAcc := none, curComp := [], memberSizeOpt := ms,
    dictByte := db, headerWritten := false, finished := false,
    crcDigest := [], uncompressedSize := 0, curMemberUncomp := 0,
    members := [] }

/-- `LZIPWriter::should_finish_member` (`src/lzip/writer.rs`). -/
def lzipShouldFinishMember (st : LZIPWriterState) : Bool :=
  match st.memberSizeOpt with
  | some m => decide (st.curMemberUncomp ≥ m)
  | none => false

/-- `LZIPWriter::start_new_member` (`src/lzip/writer.rs`): writes the
6-byte header (magic "LZIP", version 1, dictionary-size byte), wraps the
sink in a fresh counting writer and a fresh LZMA writer, and resets the
per-member bookkeeping. -/
def lzipStartNewMember (st : LZIPWriterState) : LZIPWriterState :=
  { st with
      inner := st.inner ++ [76, 90, 73, 80, 1, st.dictByte],
      curComp := [],
      lzmaAcc := some [],
      headerWritten := true,
      curMemberUncomp := 0,
      crcDigest := [],
      uncompressedSize := 0 }

/-- `LZIPWriter::finish_current_member` (`src/lzip/writer.rs`): finishes the
inner LZMA writer (flushing `emitFinish` through the counting writer), then
writes the 20-byte trailer — CRC-32 of the digest, `uncompressed_size` as
u64 LE, and `member_size = HEADER_SIZE + compressed + TRAILER_SIZE` — and
hands the sink back; the digest is replaced by a fresh one. -/
def lzipFinishCurrentMember (M : LZMAEnc) (st : LZIPWriterState) :
    LZIPWriterState :=
  let acc := st.lzmaAcc.getD []
  let fout := M.emitFinish acc
  let comp := st.curComp ++ fout
  let member_size := 6 + comp.length + 20
  { st with
      inner := st.inner ++ fout ++ le32 (crc32 st.crcDigest) ++
        le64 st.uncompressedSize ++ le64 member_size,
      lzmaAcc := none,
      curComp := comp,
      headerWritten := false,
      crcDigest := [],
      members := st.members ++ [(st.crcDigest, comp)] }

/-- `LZIPWriter::into_inner`: hands out the sink (whether held directly or
inside the LZMA/counting writers, it is the same byte sink, tracked here in
`inner`). -/
def lzipIntoInner (st : LZIPWriterState) : List Nat := st.inner

/-- The head of each `LZIPWriter::write` loop iteration
(`src/lzip/writer.rs`): finish the current member when it reached the
member-size budget, then start a new member when none is open. -/
def lzipFinishIfDue (M : LZMAEnc) (st0 : LZIPWriterState) : LZIPWriterState :=
  if lzipShouldFinishMember st0 && st0.headerWritten
  then lzipFinishCurrentMember M st0 else st0

/-- Start a member when none is open (the `if !self.header_written` step of
the write loop and of `write_header`). -/
def lzipStartIfNeeded (st1 : LZIPWriterState) : LZIPWriterState :=
  if st1.headerWritten = false then lzipStartNewMember st1 else st1

def lzipWriteStepPrep (M : LZMAEnc) (st0 : LZIPWriterState) :
    LZIPWriterState :=
  lzipStartIfNeeded (lzipFinishIfDue M st0)

/-- The `bytes_to_write` computation of `LZIPWriter::write`: the slice is
capped at the member budget (`saturating_sub` is `Nat` subtraction). -/
def lzipBytesToWrite (st : LZIPWriterState) (remLen : Nat) : Nat :=
  match st.memberSizeOpt with
  | some m => min remLen (m - st.curMemberUncomp)
  | none => remLen

/-- The state change of one successful inner LZMA write during
`LZIPWriter::write`: the chunk is fully consumed, the emitted compressed
bytes go through the counting writer into the sink, and the consumed bytes
feed the CRC digest and the size counters. -/
def lzipConsume (M : LZMAEnc) (st : LZIPWriterState) (chunk : List Nat) :
    LZIPWriterState :=
  { st with
      inner := st.inner ++ M.emit (st.lzmaAcc.getD []) chunk,
      curComp := st.curComp ++ M.emit (st.lzmaAcc.getD []) chunk,
      lzmaAcc := some (st.lzmaAcc.getD [] ++ chunk),
      crcDigest := st.crcDigest ++ chunk,
      uncompressedSize := st.uncompressedSize + chunk.length,
      curMemberUncomp := st.curMemberUncomp + chunk.length }

/-- The loop of `LZIPWriter::write` (`src/lzip/writer.rs`), with explicit
fuel for the `continue` path (the dead `bytes_to_write = 0` branch of the
source is kept faithfully). -/
def lzipWriteLoop (M : LZMAEnc) :
    Nat → LZIPWriterState → List Nat → Nat → Option (Nat × LZIPWriterState)
  | 0, _, _, _ => none
  | fuel + 1, st0, remaining, total =>
    if remaining = [] then some (total, st0)
    else if lzipBytesToWrite (lzipWriteStepPrep M st0) remaining.length = 0
    then
      lzipWriteLoop M fuel
        (lzipFinishCurrentMember M (lzipWriteStepPrep M st0)) remaining total
    else
      lzipWriteLoop M fuel
        (lzipConsume M (lzipWriteStepPrep M st0)
          (remaining.take
            (lzipBytesToWrite (lzipWriteStepPrep M st0) remaining.length)))
        (remaining.drop
          (lzipBytesToWrite (lzipWriteStepPrep M st0) remaining.length))
        (total + (remaining.take
          (lzipBytesToWrite (lzipWriteStepPrep M st0) remaining.length)).length)

/-- `LZIPWriter::write` (`src/lzip/writer.rs`): rejects writes after
`finish`, accepts empty buffers trivially, otherwise runs the member loop. -/
def lzipWrite (M : LZMAEnc) (fuel : Nat) (st : LZIPWriterState)
    (buf : List Nat) : Option (Except Error Nat × LZIPWriterState) :=
  if st.finished = true then
    some (.error (.invalidData "LZIP writer already finished"), st)
  else if buf = [] then some (.ok 0, st)
  else
    match lzipWriteLoop M fuel st buf 0 with
    | none => none
    | some (total, st') => some (.ok total, st')

/-- `LZIPWriter::finish` (`src/lzip/writer.rs`), in state-passing form: the
returned state is `self` after the body's mutations, and the returned list
is the sink that `into_inner` moves out.  On an already-finished writer the
guard returns the sink immediately with no writes. -/
def lzipFinish (M : LZMAEnc) (st : LZIPWriterState) :
    Except Error (List Nat) × LZIPWriterState :=
  if st.finished = true then
    (.ok (lzipIntoInner st), st)
  else
    (.ok (lzipIntoInner
        { lzipFinishCurrentMember M (lzipStartIfNeeded st) with
            finished := true }),
     { lzipFinishCurrentMember M (lzipStartIfNeeded st) with
         finished := true })

/-- Folds a sequence of user `write_all` calls over the writer. -/
def lzipRunWrites (M : LZMAEnc) (fuel : Nat) :
    LZIPWriterState → List (List Nat) → Option LZIPWriterState
  | st, [] => some st
  | st, buf :: rest =>
      match lzipWrite M fuel st buf with
      | some (.ok _, st') => lzipRunWrites M fuel st' rest
      | _ => none

/-- A complete writer session: construction, a sequence of writes, then
`finish`; yields the sink contents and the final state (with its ghost
member log). -/
def lzipRun (M : LZMAEnc) (fuel : Nat) (db : Nat) (ms : Option Nat)
    (calls : List (List Nat)) : Option (List Nat × LZIPWriterState) :=
  match lzipRunWrites M fuel (lzipNew db ms) calls with
  | none => none
  | some st =>
      match lzipFinish M st with
      | (.ok out, st') => some (out, st')
      | (.error _, _) => none

/-- The on-disk rendering of one LZIP member as claim C8 words it: 6-byte
header, compressed payload, then the 20-byte trailer made of the little-
endian CRC-32/ISO-HDLC of exactly the member's uncompressed bytes, the
uncompressed byte count as u64 LE, and
`member_size = 6 + compressed + 20`. -/
def renderMember (db : Nat) (m : List Nat × List Nat) : List Nat :=
  [76, 90, 73, 80, 1, db] ++ m.2 ++ le32 (crc32 m.1) ++
    le64 m.1.length ++ le64 (6 + m.2.length + 20)

/-- The invariant tying the sink bytes to the ghost member log: the sink is
the rendered completed members followed, while a member is open, by its
header and the compressed bytes written so far; the `uncompressed_size`
counter matches the digest. -/
def lzipInv (db : Nat) (st : LZIPWriterState) : Prop :=
  (st.headerWritten = true → st.uncompressedSize = st.crcDigest.length)
  ∧ st.inner = (st.members.map (renderMember db)).flatten ++
      (if st.headerWritten = true
       then [76, 90, 73, 80, 1, st.dictByte] ++ st.curComp else [])
  ∧ st.dictByte = db

/-- Extracts the payload of an ok-result (used by concrete witnesses). -/
def okD {α : Type} (dflt : α) : Except Error α → α
  | .ok a => a
  | .error _ => dflt

/-- A trivial concrete encoder (identity emission, empty finish flush) used
by the witnesses. -/
def lzipIdEnc : LZMAEnc :=
  { emit := fun _ chunk => chunk, emitFinish := fun _ => [] }

/-- Phase of the multi-threaded LZMA2 writer (`enum State` in
`src/enc/lzma2_writer_mt.rs`). -/
inductive MTPhase where
  | writing
  | finishing
  | finished
  | error
deriving DecidableEq, Repr

/-- `MIN_STREAM_SIZE` from `src/enc/lzma2_writer_mt.rs` (256 KiB). -/
def MIN_STREAM_SIZE : Nat := 1 <<< 18

/-- Lookup in the out-of-order chunk map (`BTreeMap<u64, Vec<u8>>`),
modelled as an association list with unique keys. -/
def mapLookup (m : List (Nat × List Nat)) (k : Nat) : Option (List Nat) :=
  match m with
  | [] => none
  | (k', v) :: rest => if k' = k then some v else mapLookup rest k

/-- Removal from the out-of-order chunk map. -/
def mapRemoveKey (m : List (Nat × List Nat)) (k : Nat) :
    List (Nat × List Nat) :=
  m.filter (fun p => p.1 ≠ k)

/-- Insertion into the out-of-order chunk map (keys are unique sequence
numbers, so plain cons suffices for lookup semantics). -/
def mapInsert (m : List (Nat × List Nat)) (k : Nat) (v : List Nat) :
    List (Nat × List Nat) :=
  (k, v) :: mapRemoveKey m k

/-- The controller state of `LZMA2WriterMT` (`src/enc/lzma2_writer_mt.rs`).
The result channel is modelled by `incoming` (results that will arrive, in
arrival order) plus `disconnected` (no live senders remain); the
work-stealing queue by `queue`/`queueClosed`; the mutex-protected error slot
by `errorStore`.  Worker threads are not modelled — the theorems quantify
over the channel/error contents they may produce. -/
structure MTState where
  cwu : List Nat
  streamSize : Nat
  nextDispatch : Nat
  nextWrite : Nat
  lastSeq : Option Nat
  ooo : List (Nat × List Nat)
  errorStore : Option Error
  shutdown : Bool
  phase : MTPhase
  queue : List (Nat × List Nat)
  queueClosed : Bool
  inner : List Nat
  incoming : List (Nat × List Nat)
  disconnected : Bool
deriving DecidableEq, Repr

/-- Modelled from the spec: `set_error` is defined outside the provided
sources; per spec section 7 "the multi-thread writer remembers only the
first error", and per section 4.K the error path flips the shutdown flag so
workers exit. -/
def mtSetError (e : Error) (st : MTState) : MTState :=
  { st with
      errorStore :=
        match st.errorStore with
        | some e0 => some e0
        | none => some e,
      shutdown := true }

/-- Modelled from the spec: pushing onto the work-stealing queue (module
`work_queue`, not among the provided sources) succeeds unless the queue has
been closed (spec section 4.K: `Drop` and `finish` close the queue). -/
def mtQueuePush (st : MTState) (item : Nat × List Nat) : Bool × MTState :=
  if st.queueClosed then (false, st)
  else (true, { st with queue := st.queue ++ [item] })

/-- Translation of `LZMA2WriterMT::get_next_compressed_chunk`
(`src/enc/lzma2_writer_mt.rs`), with explicit fuel for its loop; `none`
means the fuel ran out or a blocking `recv` would wait forever.  The order
of checks matches the source: out-of-order buffer first, then the error
slot (whose `take` clears it), then the phase-dependent receive logic. -/
def mtGetNext (fuel : Nat) (blocking : Bool) (st : MTState) :
    Option ((Except Error (Option (List Nat))) × MTState) :=
  match fuel with
  | 0 => none
  | fuel + 1 =>
    match mapLookup st.ooo st.nextWrite with
    | some result =>
        some (.ok (some result),
          { st with ooo := mapRemoveKey st.ooo st.nextWrite,
                    nextWrite := st.nextWrite + 1 })
    | none =>
      match st.errorStore with
      | some e =>
          some (.error e, { st with errorStore := none, phase := .error })
      | none =>
        match st.phase with
        | .writing =>
            match st.incoming with
            | (seq, result) :: rest =>
                if seq = st.nextWrite then
                  some (.ok (some result),
                    { st with incoming := rest, nextWrite := st.nextWrite + 1 })
                else
                  mtGetNext fuel blocking
                    { st with incoming := rest,
                              ooo := mapInsert st.ooo seq result }
            | [] =>
                if st.disconnected then
                  mtGetNext fuel blocking { st with phase := .finishing }
                else if blocking then none
                else some (.ok none, st)
        | .finishing =>
            if (match st.lastSeq with
                | some last =>
                    decide (st.nextWrite > last) && decide (st.ooo = [])
                | none => false) then
              mtGetNext fuel blocking { st with phase := .finished }
            else
              match st.incoming with
              | (seq, result) :: rest =>
                  if seq = st.nextWrite then
                    some (.ok (some result),
                      { st with incoming := rest,
                                nextWrite := st.nextWrite + 1 })
                  else
                    mtGetNext fuel blocking
                      { st with incoming := rest,
                                ooo := mapInsert st.ooo seq result }
              | [] =>
                  if st.disconnected then
                    mtGetNext fuel blocking
                      (if (match st.lastSeq with
                           | some last =>
                               decide (st.nextWrite ≤ last) &&
                                 decide (st.ooo = [])
                           | none => false) then
                        mtSetError (.invalidData "A compressed chunk was lost")
                          { st with phase := .error }
                      else st)
                  else none
        | .finished => some (.ok none, st)
        | .error =>
            some (.error
              (match st.errorStore with
               | some e => e
               | none => .other "Compression failed with an unknown error"),
              { st with errorStore := none })

/-- Translation of `LZMA2WriterMT::send_work_unit`
(`src/enc/lzma2_writer_mt.rs`): drains finished chunks while the in-flight
queue is full, then takes the current work unit and pushes it with the next
sequence number; a closed queue records and surfaces an error. -/
def mtSendWorkUnit (fuel : Nat) (st : MTState) :
    Option ((Except Error Unit) × MTState) :=
  match fuel with
  | 0 => none
  | fuel + 1 =>
    if st.cwu = [] then some (.ok (), st)
    else if st.queue.length ≥ 4 then
      match mtGetNext fuel true st with
      | none => none
      | some (.error e, st') => some (.error e, st')
      | some (.ok (some chunk), st') =>
          mtSendWorkUnit fuel { st' with inner := st'.inner ++ chunk }
      | some (.ok none, st') =>
          if st'.phase = .writing then mtSendWorkUnit fuel st'
          else
            some (.error (.brokenPipe
              "Stream has been closed or is in an error state."), st')
    else
      match mtQueuePush { st with cwu := [] } (st.nextDispatch, st.cwu) with
      | (true, st') =>
          some (.ok (), { st' with nextDispatch := st'.nextDispatch + 1 })
      | (false, st') =>
          match mtSetError (.brokenPipe "Worker threads have shut down")
              { st' with phase := .error } with
          | st'' =>
              some (.error
                (match st''.errorStore with
                 | some e => e
                 | none => .other "Failed to push to work queue"),
                { st'' with errorStore := none })

/-- Drains completed chunks non-blockingly (the inner `while let` of
`LZMA2WriterMT::write`). -/
def mtDrain (fuel : Nat) (st : MTState) :
    Option ((Except Error Unit) × MTState) :=
  match fuel with
  | 0 => none
  | fuel + 1 =>
    match mtGetNext fuel false st with
    | none => none
    | some (.error e, st') => some (.error e, st')
    | some (.ok (some chunk), st') =>
        mtDrain fuel { st' with inner := st'.inner ++ chunk }
    | some (.ok none, st') => some (.ok (), st')

/-- `to_write` of one `LZMA2WriterMT::write` loop iteration
(`saturating_sub` is `Nat` subtraction). -/
def mtToWrite (st : MTState) (remLen : Nat) : Nat :=
  min remLen (st.streamSize - st.cwu.length)

/-- Appends the accepted slice to the current work unit (the `to_write > 0`
branch; when `to_write = 0` the take is empty and this is the identity, as
in the source). -/
def mtAccept (st : MTState) (remaining : List Nat) : MTState :=
  { st with cwu := st.cwu ++ remaining.take (mtToWrite st remaining.length) }

/-- The loop of `LZMA2WriterMT::write` (`src/enc/lzma2_writer_mt.rs`):
accept bytes up to the stream size, dispatch a full work unit, drain
completed chunks, repeat. -/
def mtWriteLoop (fuel : Nat) (st : MTState) (remaining : List Nat)
    (total : Nat) : Option ((Except Error Nat) × MTState) :=
  match fuel with
  | 0 => none
  | fuel + 1 =>
    if remaining = [] then some (.ok total, st)
    else
      match (if (mtAccept st remaining).cwu.length ≥
                (mtAccept st remaining).streamSize
             then mtSendWorkUnit fuel (mtAccept st remaining)
             else some (.ok (), mtAccept st remaining)) with
      | none => none
      | some (.error e, st') => some (.error e, st')
      | some (.ok _, st') =>
          match mtDrain fuel st' with
          | none => none
          | some (.error e, st'') => some (.error e, st'')
          | some (.ok _, st'') =>
              mtWriteLoop fuel st''
                (remaining.drop (mtToWrite st remaining.length))
                (total + mtToWrite st remaining.length)

/-- Translation of `LZMA2WriterMT::write` (`src/enc/lzma2_writer_mt.rs`):
empty buffers read 0; any phase other than `Writing` fails with
`InvalidInput` ("Cannot write after finishing"). -/
def mtWrite (fuel : Nat) (st : MTState) (buf : List Nat) :
    Option ((Except Error Nat) × MTState) :=
  if buf = [] then some (.ok 0, st)
  else if st.phase ≠ MTPhase.writing then
    some (.error (.invalidInput "Cannot write after finishing"), st)
  else mtWriteLoop fuel st buf 0

/-- The wait loop of `LZMA2WriterMT::flush`: blockingly collect chunks until
every dispatched sequence number has been written. -/
def mtFlushLoop (fuel : Nat) (st : MTState) (seqWait : Nat) :
    Option ((Except Error Unit) × MTState) :=
  match fuel with
  | 0 => none
  | fuel + 1 =>
    if st.nextWrite < seqWait then
      match mtGetNext fuel true st with
      | none => none
      | some (.error e, st') => some (.error e, st')
      | some (.ok (some chunk), st') =>
          mtFlushLoop fuel { st' with inner := st'.inner ++ chunk } seqWait
      | some (.ok none, st') =>
          some (.error (.brokenPipe
            "Compression stream ended unexpectedly during flush"), st')
    else some (.ok (), st)

/-- Translation of `LZMA2WriterMT::flush` (`src/enc/lzma2_writer_mt.rs`). -/
def mtFlush (fuel : Nat) (st : MTState) :
    Option ((Except Error Unit) × MTState) :=
  match (if st.cwu = [] then some (.ok (), st) else mtSendWorkUnit fuel st) with
  | none => none
  | some (.error e, st') => some (.error e, st')
  | some (.ok _, st') => mtFlushLoop fuel st' st'.nextDispatch

/-- The chunk-collecting loop of `LZMA2WriterMT::finish`. -/
def mtFinishLoop (fuel : Nat) (st : MTState) :
    Option ((Except Error Unit) × MTState) :=
  match fuel with
  | 0 => none
  | fuel + 1 =>
    match mtGetNext fuel true st with
    | none => none
    | some (.error e, st') => some (.error e, st')
    | some (.ok (some chunk), st') =>
        mtFinishLoop fuel { st' with inner := st'.inner ++ chunk }
    | some (.ok none, st') => some (.ok (), st')

/-- Translation of `LZMA2WriterMT::finish` (`src/enc/lzma2_writer_mt.rs`):
dispatch the pending unit, remember the last sequence id, transition to
`Finishing`, collect all chunks, then write the single `0x00` terminator
and shut the queue down. -/
def mtFinish (fuel : Nat) (st : MTState) :
    Option ((Except Error (List Nat)) × MTState) :=
  match mtSendWorkUnit fuel st with
  | none => none
  | some (.error e, st') => some (.error e, st')
  | some (.ok _, st1) =>
      if st1.nextDispatch = 0 then
        some (.ok (st1.inner ++ [0]),
          { st1 with inner := st1.inner ++ [0], shutdown := true,
                     queueClosed := true })
      else
        match mtFinishLoop fuel
            { st1 with lastSeq := some (st1.nextDispatch - 1),
                       phase := .finishing } with
        | none => none
        | some (.error e, st2) => some (.error e, st2)
        | some (.ok _, st2) =>
            some (.ok (st2.inner ++ [0]),
              { st2 with inner := st2.inner ++ [0], shutdown := true,
                         queueClosed := true })

/-- A concrete controller state right after a worker stored an error: still
in the `Writing` phase, error slot filled, one unit dispatched whose result
will never arrive. -/
def mtS0 : MTState :=
  { cwu := [], streamSize := 262144, nextDispatch := 1, nextWrite := 0,
    lastSeq := none, ooo := [], errorStore := some (.other "worker failed"),
    shutdown := true, phase := .writing, queue := [], queueClosed := false,
    inner := [], incoming := [], disconnected := true }

/-- The controller state after the first write call observed the stored
error: the slot is drained and the phase is `Error`. -/
def mtS1 : MTState :=
  { mtS0 with cwu := [1], errorStore := none, phase := .error }

/-- C2 counterexample: the byte `0x0C` (base 12, fraction 0) is accepted by
`decode_dict_size` and yields 4 KiB, which is strictly below the 12 KiB lower
bound asserted by the claim (the code's own test expects `0x0C ↦ 4 KiB`). -/
theorem C2_dict_size_counterexample :
    decode_dict_size 0x0C = .ok (4 * 1024) ∧ ¬ (12 * 1024 ≤ 4 * 1024) := by
  decide

/-- C2 (amended): for every byte `b`, with `base = b &&& 0x1F` and
`frac = b >>> 5`, `decode_dict_size b` returns `(1 <<< base) - frac * (1 <<< (base - 4))`
exactly when `12 ≤ base ≤ 29` and that value lies in the permitted range
`[4 KiB, 512 MiB]`; every failure is an `InvalidData` error; every accepted
result satisfies `4 KiB ≤ dict_size ≤ 512 MiB` (the claim's 12 KiB lower
bound is wrong, the code enforces 4 KiB); `decode_dict_size 0xD3 = 320 KiB`,
and `decode_dict_size 0x0B` and `decode_dict_size 0x1E` both fail with
`InvalidData`. -/
theorem C2_decode_dict_size (b : Nat) (hb : b < 256) :
    (decode_dict_size b =
        .ok ((1 <<< (b &&& 0x1F)) - (b >>> 5) * (1 <<< ((b &&& 0x1F) - 4)))
      ↔ (12 ≤ b &&& 0x1F ∧ b &&& 0x1F ≤ 29 ∧
         4 * 1024 ≤ (1 <<< (b &&& 0x1F)) - (b >>> 5) * (1 <<< ((b &&& 0x1F) - 4)) ∧
         (1 <<< (b &&& 0x1F)) - (b >>> 5) * (1 <<< ((b &&& 0x1F) - 4)) ≤ 512 * 1024 * 1024))
    ∧ (isOk (decode_dict_size b) = false → isInvalidData (decode_dict_size b) = true)
    ∧ okInDictRange (decode_dict_size b) = true
    ∧ decode_dict_size 0xD3 = .ok (320 * 1024)
    ∧ isInvalidData (decode_dict_size 0x0B) = true
    ∧ isInvalidData (decode_dict_size 0x1E) = true := by
  revert b hb
  set_option maxRecDepth 4096 in decide

/-- C2 witness: the amended theorem applied at the concrete byte `0xD3`. -/
theorem C2_decode_dict_size_witness :
    decode_dict_size 0xD3 = .ok (320 * 1024) :=
  (C2_decode_dict_size 0xD3 (by decide)).2.2.2.1

/-- Control-byte bit facts shared by the LZMA2 chunk-header theorems: for
each of the four reset levels and any 5-bit high part, the emitted byte lies
in `0x80..=0xFF`, carries the level in bits 6:5 and the high part in bits
4:0. -/
theorem lzma2CtrlByteFacts : ∀ lv, lv < 4 → ∀ h, h < 32 →
    0x80 ≤ ((0x80 + (lv <<< 5)) ||| h) % 256 ∧
    ((0x80 + (lv <<< 5)) ||| h) % 256 ≤ 0xFF ∧
    ((((0x80 + (lv <<< 5)) ||| h) % 256) >>> 5) &&& 0x3 = lv ∧
    (((0x80 + (lv <<< 5)) ||| h) % 256) &&& 0x1F = h := by
  decide

/-- C3: an LZMA chunk emitted by `write_lzma` consists of a control byte in
`0x80..=0xFF` carrying the reset level in bits 6:5 and the high 5 bits of
`uncompressed_size - 1` in bits 4:0, two bytes with the low 16 bits of
`uncompressed_size - 1` (big-endian), two bytes with `compressed_size - 1`
big-endian, the properties byte `(pb*5+lp)*9+lc` exactly when the reset
level is 2 or 3, and then the compressed payload; the first chunk of a
stream started without a preset dictionary uses reset level 3.  The bounds
`u ≤ 2097152 = 2^21` and `C.length ≤ 65536 = 2^16` are the LZMA2 chunk size
caps; conjuncts (8) and (9) check that the emitted fields reconstruct the
size values exactly. -/
theorem C3_write_lzma_chunk (st : LZMA2Flags) (pb lp lc u : Nat) (C : List Nat)
    (hpb : pb ≤ 4) (hlp : lp ≤ 4) (hlc : lc ≤ 8)
    (hprops : st.props = get_props pb lp lc)
    (hu1 : 1 ≤ u) (hu2 : u ≤ 2097152)
    (_hc1 : 1 ≤ C.length) (hc2 : C.length ≤ 65536) :
    ∃ b0,
      (write_lzma st u C).1 =
        b0 :: ((u - 1) >>> 8) % 256 :: (u - 1) % 256 ::
          ((C.length - 1) >>> 8) % 256 :: (C.length - 1) % 256 ::
          ((if st.props_needed then [(pb * 5 + lp) * 9 + lc] else []) ++ C)
      ∧ 0x80 ≤ b0
      ∧ b0 ≤ 0xFF
      ∧ (b0 >>> 5) &&& 0x3 = lzma2ResetLevel st
      ∧ b0 &&& 0x1F = (u - 1) >>> 16
      ∧ (st.props_needed = true ↔
          (lzma2ResetLevel st = 2 ∨ lzma2ResetLevel st = 3))
      ∧ (st = lzma2InitFlags pb lp lc false → lzma2ResetLevel st = 3)
      ∧ ((u - 1) >>> 16) * 65536 + (((u - 1) >>> 8) % 256) * 256 +
          (u - 1) % 256 = u - 1
      ∧ (((C.length - 1) >>> 8) % 256) * 256 + (C.length - 1) % 256 =
          C.length - 1
      ∧ (write_lzma st u C).2 =
          { st with props_needed := false, state_reset_needed := false,
                    dict_reset_needed := false } := by
  have h224 : (pb * 5 + lp) * 9 + lc < 256 := by omega
  have hprops' : st.props = (pb * 5 + lp) * 9 + lc := by
    rw [hprops]; unfold get_props; exact Nat.mod_eq_of_lt h224
  have e16 : (u - 1) >>> 16 = (u - 1) / 65536 := by
    rw [Nat.shiftRight_eq_div_pow]
  have e8 : (u - 1) >>> 8 = (u - 1) / 256 := by
    rw [Nat.shiftRight_eq_div_pow]
  have ec8 : (C.length - 1) >>> 8 = (C.length - 1) / 256 := by
    rw [Nat.shiftRight_eq_div_pow]
  have hhi : (u - 1) >>> 16 < 32 := by rw [e16]; omega
  have hrecon1 : ((u - 1) >>> 16) * 65536 + (((u - 1) >>> 8) % 256) * 256 +
      (u - 1) % 256 = u - 1 := by
    rw [e16, e8]; omega
  have hrecon2 : (((C.length - 1) >>> 8) % 256) * 256 + (C.length - 1) % 256 =
      C.length - 1 := by
    rw [ec8]; omega
  have hinit : st = lzma2InitFlags pb lp lc false → lzma2ResetLevel st = 3 := by
    intro h; rw [h]; rfl
  by_cases hpn : st.props_needed = true
  · by_cases hdr : st.dict_reset_needed = true
    · obtain ⟨f2, f3, f4, f5⟩ :=
        lzma2CtrlByteFacts 3 (by norm_num) ((u - 1) >>> 16) hhi
      refine ⟨((0x80 + (3 <<< 5)) ||| ((u - 1) >>> 16)) % 256,
        ?_, f2, f3, ?_, f5, ?_, hinit, hrecon1, hrecon2, rfl⟩
      · simp [write_lzma, hpn, hdr, hprops']
      · rw [show lzma2ResetLevel st = 3 by simp [lzma2ResetLevel, hpn, hdr]]
        exact f4
      · simp [lzma2ResetLevel, hpn, hdr]
    · obtain ⟨f2, f3, f4, f5⟩ :=
        lzma2CtrlByteFacts 2 (by norm_num) ((u - 1) >>> 16) hhi
      refine ⟨((0x80 + (2 <<< 5)) ||| ((u - 1) >>> 16)) % 256,
        ?_, f2, f3, ?_, f5, ?_, hinit, hrecon1, hrecon2, rfl⟩
      · simp [write_lzma, hpn, hdr, hprops']
      · rw [show lzma2ResetLevel st = 2 by simp [lzma2ResetLevel, hpn, hdr]]
        exact f4
      · simp [lzma2ResetLevel, hpn, hdr]
  · by_cases hsr : st.state_reset_needed = true
    · obtain ⟨f2, f3, f4, f5⟩ :=
        lzma2CtrlByteFacts 1 (by norm_num) ((u - 1) >>> 16) hhi
      refine ⟨((0x80 + (1 <<< 5)) ||| ((u - 1) >>> 16)) % 256,
        ?_, f2, f3, ?_, f5, ?_, hinit, hrecon1, hrecon2, rfl⟩
      · simp [write_lzma, hpn, hsr]
      · rw [show lzma2ResetLevel st = 1 by simp [lzma2ResetLevel, hpn, hsr]]
        exact f4
      · simp [lzma2ResetLevel, hpn, hsr]
    · obtain ⟨f2, f3, f4, f5⟩ :=
        lzma2CtrlByteFacts 0 (by norm_num) ((u - 1) >>> 16) hhi
      refine ⟨((0x80 + (0 <<< 5)) ||| ((u - 1) >>> 16)) % 256,
        ?_, f2, f3, ?_, f5, ?_, hinit, hrecon1, hrecon2, rfl⟩
      · simp [write_lzma, hpn, hsr]
      · rw [show lzma2ResetLevel st = 0 by simp [lzma2ResetLevel, hpn, hsr]]
        exact f4
      · simp [lzma2ResetLevel, hpn, hsr]

/-- C3 witness: the theorem applied to the first chunk of a fresh stream
(`lzma2InitFlags 2 0 3 false`) with one uncompressed byte and a one-byte
compressed payload. -/
theorem C3_write_lzma_chunk_witness :
    ∃ b0,
      (write_lzma (lzma2InitFlags 2 0 3 false) 1 [7]).1 =
        b0 :: ((1 - 1) >>> 8) % 256 :: (1 - 1) % 256 ::
          ((([7] : List Nat).length - 1) >>> 8) % 256 ::
          (([7] : List Nat).length - 1) % 256 ::
          ((if (lzma2InitFlags 2 0 3 false).props_needed then
              [(2 * 5 + 0) * 9 + 3] else []) ++ [7])
      ∧ 0x80 ≤ b0
      ∧ b0 ≤ 0xFF
      ∧ (b0 >>> 5) &&& 0x3 = lzma2ResetLevel (lzma2InitFlags 2 0 3 false)
      ∧ b0 &&& 0x1F = (1 - 1) >>> 16
      ∧ ((lzma2InitFlags 2 0 3 false).props_needed = true ↔
          (lzma2ResetLevel (lzma2InitFlags 2 0 3 false) = 2 ∨
           lzma2ResetLevel (lzma2InitFlags 2 0 3 false) = 3))
      ∧ (lzma2InitFlags 2 0 3 false = lzma2InitFlags 2 0 3 false →
          lzma2ResetLevel (lzma2InitFlags 2 0 3 false) = 3)
      ∧ ((1 - 1) >>> 16) * 65536 + (((1 - 1) >>> 8) % 256) * 256 +
          (1 - 1) % 256 = 1 - 1
      ∧ ((((([7] : List Nat).length - 1) >>> 8) % 256) * 256 +
          (([7] : List Nat).length - 1) % 256 = ([7] : List Nat).length - 1)
      ∧ (write_lzma (lzma2InitFlags 2 0 3 false) 1 [7]).2 =
          { lzma2InitFlags 2 0 3 false with
              props_needed := false, state_reset_needed := false,
              dict_reset_needed := false } :=
  C3_write_lzma_chunk (lzma2InitFlags 2 0 3 false) 2 0 3 1 [7]
    (by decide) (by decide) (by decide) rfl (by decide) (by decide)
    (by decide) (by decide)

/-- Structural description of `write_uncompressed`: the pending bytes split
into nonempty segments of at most 64 KiB rendered as uncompressed chunks,
and the dictionary-reset flag comes out cleared. -/
theorem write_uncompressed_spec :
    ∀ (n : Nat) (P : List Nat), P.length ≤ n → P ≠ [] → ∀ d,
    ∃ segs, segs.flatten = P
      ∧ (∀ s ∈ segs, 1 ≤ s.length ∧ s.length ≤ 65536)
      ∧ write_uncompressed d P = (renderUncompSegs d segs, false) := by
  intro n
  induction n with
  | zero =>
      intro P hlen hne _
      exact absurd (List.length_eq_zero.mp (Nat.le_zero.mp hlen)) hne
  | succ n ih =>
      intro P hlen hne d
      have hCSM : COMPRESSED_SIZE_MAX = 65536 := rfl
      have hP0 : ¬ P.length = 0 := by
        have := List.length_pos.mpr hne; omega
      have hchunk1 : 1 ≤ min P.length COMPRESSED_SIZE_MAX := by omega
      have hchunkle : min P.length COMPRESSED_SIZE_MAX ≤ P.length :=
        min_le_left _ _
      by_cases hdrop : P.drop (min P.length COMPRESSED_SIZE_MAX) = []
      · have hPle : P.length ≤ min P.length COMPRESSED_SIZE_MAX := by
          have h := congrArg List.length hdrop
          simp only [List.length_drop, List.length_nil] at h
          omega
        have hPchunk : min P.length COMPRESSED_SIZE_MAX = P.length :=
          le_antisymm hchunkle hPle
        have hbase : write_uncompressed false ([] : List Nat) = ([], false) := by
          rw [write_uncompressed]
          simp
        refine ⟨[P], by simp, ?_, ?_⟩
        · intro s hs
          simp only [List.mem_singleton] at hs
          subst hs
          exact ⟨by omega, by omega⟩
        · rw [write_uncompressed, dif_neg hP0, hdrop, hbase]
          rw [hPchunk]
          simp [renderUncompSegs]
      · have hdlen : (P.drop (min P.length COMPRESSED_SIZE_MAX)).length ≤ n := by
          simp only [List.length_drop]
          omega
        obtain ⟨segs, hjoin, hbound, heq⟩ :=
          ih (P.drop (min P.length COMPRESSED_SIZE_MAX)) hdlen hdrop false
        have h1 : (P.take (min P.length COMPRESSED_SIZE_MAX)).length =
            min P.length COMPRESSED_SIZE_MAX := by
          simp only [List.length_take]
          omega
        refine ⟨P.take (min P.length COMPRESSED_SIZE_MAX) :: segs, ?_, ?_, ?_⟩
        · simp [hjoin]
        · intro s hs
          rcases List.mem_cons.mp hs with hs | hs
          · subst hs
            rw [h1]
            exact ⟨hchunk1, by omega⟩
          · exact hbound s hs
        · rw [write_uncompressed, dif_neg hP0, heq]
          simp [renderUncompSegs, h1]

/-- C4: `write_chunk` with pending bytes `P` and compressed form `C` falls
back to uncompressed chunks whenever `C.length + 2 ≥ P.length`: the pending
bytes come out as chunks of at most 65536 bytes with control byte `0x01`
when a dictionary reset is pending and `0x02` otherwise (each with its
2-byte big-endian `chunk_size - 1`), the encoder is reset (ghost flag
`true`) and a state reset is marked for the next LZMA chunk; otherwise it
emits an LZMA chunk via `write_lzma` with no encoder reset. -/
theorem C4_write_chunk_fallback (st : LZMA2Flags) (P C : List Nat)
    (hP : P ≠ []) (_hC : C ≠ []) :
    (P.length ≤ C.length + 2 →
      ∃ segs, segs.flatten = P
        ∧ (∀ s ∈ segs, 1 ≤ s.length ∧ s.length ≤ 65536)
        ∧ write_chunk st P C =
            (renderUncompSegs st.dict_reset_needed segs,
             { st with dict_reset_needed := false,
                       state_reset_needed := true },
             true))
    ∧ (C.length + 2 < P.length →
      write_chunk st P C =
        ((write_lzma st P.length C).1, (write_lzma st P.length C).2,
         false)) := by
  constructor
  · intro hge
    obtain ⟨segs, h1, h2, h3⟩ :=
      write_uncompressed_spec P.length P le_rfl hP st.dict_reset_needed
    refine ⟨segs, h1, h2, ?_⟩
    unfold write_chunk
    rw [if_neg (by omega)]
    simp [h3]
  · intro hlt
    unfold write_chunk
    rw [if_pos hlt]

/-- C4 witness: the theorem applied at a concrete fallback case (three
pending bytes whose "compressed" form is also three bytes). -/
theorem C4_write_chunk_fallback_witness :
    ∃ segs, segs.flatten = [10, 20, 30]
      ∧ (∀ s ∈ segs, 1 ≤ s.length ∧ s.length ≤ 65536)
      ∧ write_chunk (lzma2InitFlags 2 0 3 false) [10, 20, 30] [1, 2, 3] =
          (renderUncompSegs (lzma2InitFlags 2 0 3 false).dict_reset_needed
            segs,
           { lzma2InitFlags 2 0 3 false with
               dict_reset_needed := false, state_reset_needed := true },
           true) :=
  (C4_write_chunk_fallback (lzma2InitFlags 2 0 3 false) [10, 20, 30] [1, 2, 3]
    (by decide) (by decide)).1 (by decide)

/-- Bind of an ok-result in the `Except` monad reduces to the continuation. -/
theorem exceptBindOk {α β : Type} (a : α) (f : α → Except Error β) :
    (Except.ok a >>= f) = f a := rfl

/-- Bind of an error in the `Except` monad short-circuits. -/
theorem exceptBindErr {α β : Type} (e : Error) (f : α → Except Error β) :
    ((Except.error e : Except Error α) >>= f) = .error e := rfl

/-- C5 counterexample: `construct2` accepts `lc = 3, lp = 2` although
`lc + lp = 5 > 4`; the claimed rejection of `lc + lp > 4` does not exist in
the reader's validation. -/
theorem C5_reader_params_counterexample :
    isOk (construct2 [0, 0, 0, 0, 0] U64_MAX 3 2 2 65536) = true
    ∧ 3 + 2 > 4 := by
  constructor
  · rfl
  · decide

/-- C5 (amended): `construct2` fails with `InvalidInput` for `lc > 8`,
`lp > 4`, `pb > 4` and for `dict_size > 0xFFFFFFF0`; it does NOT reject
`lc + lp > 4`: every combination with `lc ≤ 8`, `lp ≤ 4`, `pb ≤ 4` and a
dictionary size within range is accepted (given a well-formed five-byte
range-coder preamble). -/
theorem C5_reader_param_validation :
    (∀ (input : List Nat) (uncomp lc lp pb dict : Nat),
        (lc > 8 ∨ lp > 4 ∨ pb > 4) →
        construct2 input uncomp lc lp pb dict =
          .error (.invalidInput "Invalid lc or lp or pb"))
    ∧ (∀ (input : List Nat) (uncomp lc lp pb dict : Nat),
        lc ≤ 8 → lp ≤ 4 → pb ≤ 4 → dict > 0xFFFFFFF0 →
        construct2 input uncomp lc lp pb dict =
          .error (.invalidInput "dict size too large"))
    ∧ (∀ (uncomp lc lp pb dict b1 b2 b3 b4 : Nat) (rest : List Nat),
        lc ≤ 8 → lp ≤ 4 → pb ≤ 4 → dict ≤ 0xFFFFFFF0 →
        isOk (construct2 (0 :: b1 :: b2 :: b3 :: b4 :: rest)
          uncomp lc lp pb dict) = true) := by
  refine ⟨?_, ?_, ?_⟩
  · intro input uncomp lc lp pb dict h
    unfold construct2
    rw [if_pos h]
  · intro input uncomp lc lp pb dict h8 h4 hp4 hdict
    unfold construct2
    rw [if_neg (by omega)]
    have h1 : lzma_get_dict_size dict = .error (.invalidInput "dict size too large") := by
      unfold lzma_get_dict_size
      rw [if_pos]
      show dict > DICT_SIZE_MAX
      have : DICT_SIZE_MAX = 0xFFFFFFF0 := rfl
      omega
    rw [h1, exceptBindErr]
  · intro uncomp lc lp pb dict b1 b2 b3 b4 rest h8 h4 hp4 hdict
    have hmax : DICT_SIZE_MAX = 0xFFFFFFF0 := rfl
    have hok : ∀ d, d ≤ 0xFFFFFFF0 →
        lzma_get_dict_size d = .ok ((max d 4096 + 15) &&& 0xFFFFFFF0) := by
      intro d hd
      unfold lzma_get_dict_size
      rw [if_neg (by omega)]
    have hmask : ∀ x : Nat, x &&& 0xFFFFFFF0 ≤ 0xFFFFFFF0 :=
      fun x => Nat.and_le_right
    have hrc : rangeDecoderNewStream (0 :: b1 :: b2 :: b3 :: b4 :: rest) =
        .ok ((b1 <<< 24) + (b2 <<< 16) + (b3 <<< 8) + b4, rest) := by
      simp [rangeDecoderNewStream]
    unfold construct2
    rw [if_neg (by omega)]
    rw [hok dict hdict]
    simp only [exceptBindOk]
    by_cases hbr : uncomp ≤ U64_MAX / 2 ∧ (max dict 4096 + 15) &&& 0xFFFFFFF0 > uncomp
    · rw [if_pos hbr]
      have hu32 : uncomp % 2 ^ 32 = uncomp := by
        have := hmask (max dict 4096 + 15)
        exact Nat.mod_eq_of_lt (by omega)
      rw [hu32, hok uncomp (by have := hmask (max dict 4096 + 15); omega)]
      simp only [exceptBindOk]
      rw [hrc]
      simp only [exceptBindOk]
      rw [hok _ (hmask (max uncomp 4096 + 15))]
      simp only [exceptBindOk]
      rfl
    · rw [if_neg hbr]
      simp only [pure, Except.pure, exceptBindOk]
      rw [hrc]
      simp only [exceptBindOk]
      rw [hok _ (hmask (max dict 4096 + 15))]
      simp only [exceptBindOk]
      rfl

/-- C5 witness: the amended theorem applied at `lc = 9` (rejected) and at
the in-range parameters `lc = 8, lp = 4, pb = 4` (accepted although
`lc + lp = 12 > 4`). -/
theorem C5_reader_param_validation_witness :
    construct2 [0, 1, 2, 3, 4] 13 9 0 0 4096 =
      .error (.invalidInput "Invalid lc or lp or pb")
    ∧ isOk (construct2 (0 :: 1 :: 2 :: 3 :: 4 :: []) 13 8 4 4 4096) = true :=
  ⟨C5_reader_param_validation.1 [0, 1, 2, 3, 4] 13 9 0 0 4096 (by omega),
   C5_reader_param_validation.2.2 13 8 4 4 4096 1 2 3 4 []
     (by omega) (by omega) (by omega) (by omega)⟩

/-- C6: in `read_decode`, a failing inner decode step is suppressed (the
stream is treated as ended) if and only if the declared uncompressed size is
unknown (`u64::MAX`) and the end marker has been detected — in every other
case the error is returned unchanged; and whenever the end is reached while
the LZ window still has pending bytes, the read fails with `InvalidData`
(shown both on the suppression path and on the path where the known
remaining size runs out). -/
theorem C6_read_decode_end_conditions (st : ReaderLoopState) (step : DecStep)
    (rest : List DecStep) (bufLen : Nat)
    (hre : st.endReached = false)
    (hrelax : st.relaxedEndCond = true)
    (hlen : 0 < bufLen) :
    (∀ e, step.decodeError = some e →
      ((st.remainingSize ≠ U64_MAX ∨ step.endMarkerDetected = false) →
        read_decode st (step :: rest) bufLen = some (.error e, st))
      ∧ (st.remainingSize = U64_MAX → step.endMarkerDetected = true →
        read_decode st (step :: rest) bufLen =
          some (if step.hasPending then
                  (.error (.invalidData "end reached but not decoder finished"),
                   { st with endReached := true })
                else (.ok step.flushCopied, { st with endReached := true }))))
    ∧ (step.decodeError = none → st.remainingSize ≤ U64_MAX / 2 →
        step.flushCopied = st.remainingSize → step.hasPending = true →
        read_decode st (step :: rest) bufLen =
          some (.error (.invalidData "end reached but not decoder finished"),
                { st with remainingSize := 0, endReached := true })) := by
  obtain ⟨er, rx, rs⟩ := st
  dsimp only at hre hrelax
  subst hre hrelax
  refine ⟨fun e he => ⟨fun hcond => ?_, fun hms hmk => ?_⟩,
    fun he hsm hcp hp => ?_⟩
  · rw [read_decode, if_neg (by omega), if_neg (by simp), read_loop,
      if_neg (by omega)]
    dsimp only
    simp only [he]
    rw [if_pos hcond]
  · dsimp only at hms
    subst hms
    rw [read_decode, if_neg (by omega), if_neg (by simp), read_loop,
      if_neg (by omega)]
    dsimp only
    simp only [he, hmk]
    rw [if_neg (by simp)]
    have hbig : ¬ (U64_MAX ≤ U64_MAX / 2) := by decide
    by_cases hpc : step.hasPending = true
    · simp [hbig, hpc]
    · simp [hbig, hpc]
  · dsimp only at hsm hcp
    rw [read_decode, if_neg (by omega), if_neg (by simp), read_loop,
      if_neg (by omega)]
    dsimp only
    simp only [he]
    rw [if_pos hsm]
    simp [hcp, hp]

/-- C6 witness: the theorem applied at a reader with unknown size
(`u64::MAX`) whose decode step fails after the end marker, with no pending
window bytes: the error is suppressed and the 3 flushed bytes are
returned. -/
theorem C6_read_decode_end_conditions_witness :
    read_decode ⟨false, true, U64_MAX⟩
        (⟨some .eof, true, 3, false, true⟩ :: []) 5 =
      some (.ok 3, ⟨true, true, U64_MAX⟩) := by
  have h := (C6_read_decode_end_conditions ⟨false, true, U64_MAX⟩
      ⟨some .eof, true, 3, false, true⟩ [] 5 rfl rfl (by decide)).1
      .eof rfl
  simpa using h.2 rfl rfl

/-- The fresh LZIP writer satisfies the sink/member invariant and is not
finished. -/
theorem lzipInv_new (db : Nat) (ms : Option Nat) :
    lzipInv db (lzipNew db ms) ∧ (lzipNew db ms).finished = false := by
  constructor
  · simp [lzipInv, lzipNew]
  · rfl

/-- `start_new_member` (from a state with no open member) preserves the
invariant, opens a member, and leaves `finished` alone. -/
theorem lzipInv_startNew (db : Nat) (st : LZIPWriterState)
    (h : lzipInv db st) (hw : st.headerWritten = false) :
    lzipInv db (lzipStartNewMember st)
    ∧ (lzipStartNewMember st).headerWritten = true
    ∧ (lzipStartNewMember st).finished = st.finished := by
  obtain ⟨_, h2, h3⟩ := h
  refine ⟨⟨fun _ => rfl, ?_, h3⟩, rfl, rfl⟩
  simp [lzipStartNewMember, h2, hw]

/-- `finish_current_member` (from a state with an open member) preserves the
invariant, closes the member, leaves `finished` alone, and appends exactly
one ghost member record. -/
theorem lzipInv_finishCur (db : Nat) (M : LZMAEnc) (st : LZIPWriterState)
    (h : lzipInv db st) (hw : st.headerWritten = true) :
    lzipInv db (lzipFinishCurrentMember M st)
    ∧ (lzipFinishCurrentMember M st).headerWritten = false
    ∧ (lzipFinishCurrentMember M st).finished = st.finished := by
  obtain ⟨h1, h2, h3⟩ := h
  refine ⟨⟨?_, ?_, h3⟩, rfl, rfl⟩
  · intro hcontra
    simp [lzipFinishCurrentMember] at hcontra
  · simp [lzipFinishCurrentMember, h2, hw, renderMember, h1 hw, h3]

/-- The head of a write-loop iteration preserves the invariant and always
leaves an open member. -/
theorem lzipInv_prep (db : Nat) (M : LZMAEnc) (st0 : LZIPWriterState)
    (h : lzipInv db st0) :
    lzipInv db (lzipWriteStepPrep M st0)
    ∧ (lzipWriteStepPrep M st0).headerWritten = true
    ∧ (lzipWriteStepPrep M st0).finished = st0.finished := by
  unfold lzipWriteStepPrep lzipFinishIfDue lzipStartIfNeeded
  by_cases hc : (lzipShouldFinishMember st0 && st0.headerWritten) = true
  · rw [if_pos hc]
    have hw : st0.headerWritten = true := (Bool.and_eq_true _ _ |>.mp hc).2
    obtain ⟨hf1, hf2, hf3⟩ := lzipInv_finishCur db M st0 h hw
    rw [if_pos hf2]
    obtain ⟨hs1, hs2, hs3⟩ :=
      lzipInv_startNew db (lzipFinishCurrentMember M st0) hf1 hf2
    exact ⟨hs1, hs2, by rw [hs3, hf3]⟩
  · rw [if_neg hc]
    by_cases hw : st0.headerWritten = false
    · rw [if_pos hw]
      obtain ⟨hs1, hs2, hs3⟩ := lzipInv_startNew db st0 h hw
      exact ⟨hs1, hs2, hs3⟩
    · rw [if_neg hw]
      have hw' : st0.headerWritten = true := by
        cases hB : st0.headerWritten
        · exact absurd hB hw
        · rfl
      exact ⟨h, hw', rfl⟩

/-- Consuming a chunk through the inner LZMA writer preserves the invariant
and keeps the member open. -/
theorem lzipInv_consume (db : Nat) (M : LZMAEnc) (st : LZIPWriterState)
    (chunk : List Nat) (h : lzipInv db st) (hw : st.headerWritten = true) :
    lzipInv db (lzipConsume M st chunk)
    ∧ (lzipConsume M st chunk).headerWritten = true
    ∧ (lzipConsume M st chunk).finished = st.finished := by
  obtain ⟨h1, h2, h3⟩ := h
  refine ⟨⟨?_, ?_, h3⟩, hw, rfl⟩
  · intro _
    simp [lzipConsume, h1 hw]
  · simp [lzipConsume, h2, hw]

/-- The write loop preserves the invariant and the not-finished flag. -/
theorem lzipInv_writeLoop (db : Nat) (M : LZMAEnc) :
    ∀ (fuel : Nat) (st : LZIPWriterState) (rem : List Nat) (tot : Nat)
      (res : Nat × LZIPWriterState),
      lzipInv db st → st.finished = false →
      lzipWriteLoop M fuel st rem tot = some res →
      lzipInv db res.2 ∧ res.2.finished = false := by
  intro fuel
  induction fuel with
  | zero =>
      intro st rem tot res _ _ hres
      simp [lzipWriteLoop] at hres
  | succ fuel ih =>
      intro st rem tot res hinv hfin hres
      simp only [lzipWriteLoop] at hres
      by_cases hrem : rem = []
      · rw [if_pos hrem] at hres
        have := Option.some.inj hres
        rw [← this]
        exact ⟨hinv, hfin⟩
      · rw [if_neg hrem] at hres
        obtain ⟨hp1, hp2, hp3⟩ := lzipInv_prep db M st hinv
        by_cases hbz : lzipBytesToWrite (lzipWriteStepPrep M st) rem.length = 0
        · rw [if_pos hbz] at hres
          obtain ⟨hf1, hf2, hf3⟩ := lzipInv_finishCur db M _ hp1 hp2
          exact ih _ _ _ _ hf1 (by rw [hf3, hp3]; exact hfin) hres
        · rw [if_neg hbz] at hres
          obtain ⟨hc1, hc2, hc3⟩ := lzipInv_consume db M _ _ hp1 hp2
          exact ih _ _ _ _ hc1 (by rw [hc3, hp3]; exact hfin) hres

/-- `LZIPWriter::write` preserves the invariant and the not-finished flag. -/
theorem lzipInv_write (db : Nat) (M : LZMAEnc) (fuel : Nat)
    (st : LZIPWriterState) (buf : List Nat) (r : Except Error Nat)
    (st' : LZIPWriterState)
    (hinv : lzipInv db st) (hfin : st.finished = false)
    (h : lzipWrite M fuel st buf = some (r, st')) :
    lzipInv db st' ∧ st'.finished = false := by
  unfold lzipWrite at h
  rw [if_neg (by simp [hfin])] at h
  by_cases hb : buf = []
  · rw [if_pos hb] at h
    have := Option.some.inj h
    have h2 := congrArg Prod.snd this
    dsimp at h2
    rw [← h2]
    exact ⟨hinv, hfin⟩
  · rw [if_neg hb] at h
    cases hl : lzipWriteLoop M fuel st buf 0 with
    | none => rw [hl] at h; simp at h
    | some p =>
        rw [hl] at h
        have := Option.some.inj h
        have h2 := congrArg Prod.snd this
        dsimp at h2
        rw [← h2]
        exact lzipInv_writeLoop db M fuel st buf 0 p hinv hfin hl

/-- A sequence of writes preserves the invariant and the not-finished
flag. -/
theorem lzipInv_runWrites (db : Nat) (M : LZMAEnc) (fuel : Nat) :
    ∀ (calls : List (List Nat)) (st st' : LZIPWriterState),
      lzipInv db st → st.finished = false →
      lzipRunWrites M fuel st calls = some st' →
      lzipInv db st' ∧ st'.finished = false := by
  intro calls
  induction calls with
  | nil =>
      intro st st' hi hf h
      simp only [lzipRunWrites] at h
      rw [← Option.some.inj h]
      exact ⟨hi, hf⟩
  | cons buf rest ih =>
      intro st st' hi hf h
      simp only [lzipRunWrites] at h
      cases hw : lzipWrite M fuel st buf with
      | none => rw [hw] at h; simp at h
      | some p =>
          rw [hw] at h
          obtain ⟨r, st1⟩ := p
          cases r with
          | ok n =>
              obtain ⟨hi1, hf1⟩ := lzipInv_write db M fuel st buf _ _ hi hf hw
              exact ih st1 st' hi1 hf1 h
          | error e => simp at h

/-- From an invariant-satisfying unfinished state, `finish` produces exactly
the rendered member log. -/
theorem lzipFinish_out (db : Nat) (M : LZMAEnc) (st : LZIPWriterState)
    (out : List Nat) (st' : LZIPWriterState)
    (hinv : lzipInv db st) (hfin : st.finished = false)
    (h : lzipFinish M st = (.ok out, st')) :
    out = (st'.members.map (renderMember db)).flatten := by
  unfold lzipFinish at h
  rw [if_neg (by simp [hfin])] at h
  have hs : lzipInv db (lzipStartIfNeeded st)
      ∧ (lzipStartIfNeeded st).headerWritten = true := by
    unfold lzipStartIfNeeded
    by_cases hw : st.headerWritten = false
    · rw [if_pos hw]
      obtain ⟨a, b, _⟩ := lzipInv_startNew db st hinv hw
      exact ⟨a, b⟩
    · rw [if_neg hw]
      refine ⟨hinv, ?_⟩
      cases hB : st.headerWritten
      · exact absurd hB hw
      · rfl
  obtain ⟨hf1, hf2, _⟩ := lzipInv_finishCur db M _ hs.1 hs.2
  have hx : (lzipFinishCurrentMember M (lzipStartIfNeeded st)).inner =
      (((lzipFinishCurrentMember M (lzipStartIfNeeded st)).members).map
        (renderMember db)).flatten := by
    obtain ⟨_, h2, _⟩ := hf1
    rw [h2, hf2]
    simp
  have ha := congrArg Prod.fst h
  have hb := congrArg Prod.snd h
  dsimp at ha hb
  injection ha with ha
  rw [← ha, ← hb]
  exact hx

/-- C8: for every completed LZIP writer session (any inner encoder
behaviour, any write-call sequence, any member-size option), the produced
sink bytes are exactly the concatenation of the completed members, each
rendered as the 6-byte header, its compressed payload, and the 20-byte
trailer holding the little-endian CRC-32/ISO-HDLC of exactly that member's
uncompressed bytes, the member's uncompressed byte count as u64 LE, and
`member_size = 6 + compressed + 20` (header and trailer included). -/
theorem C8_lzip_member_trailer (M : LZMAEnc) (fuel db : Nat)
    (ms : Option Nat) (calls : List (List Nat)) (out : List Nat)
    (st : LZIPWriterState)
    (h : lzipRun M fuel db ms calls = some (out, st)) :
    out = (st.members.map (renderMember db)).flatten := by
  unfold lzipRun at h
  cases hrw : lzipRunWrites M fuel (lzipNew db ms) calls with
  | none => rw [hrw] at h; simp at h
  | some st1 =>
      rw [hrw] at h
      dsimp only at h
      obtain ⟨hi, hf⟩ := lzipInv_runWrites db M fuel calls (lzipNew db ms) st1
        (lzipInv_new db ms).1 (lzipInv_new db ms).2 hrw
      cases hfi : lzipFinish M st1 with
      | mk r st2 =>
          cases r with
          | ok o =>
              rw [hfi] at h
              dsimp only at h
              have := Option.some.inj h
              have h1 := congrArg Prod.fst this
              have h2 := congrArg Prod.snd this
              dsimp at h1 h2
              rw [← h1, ← h2]
              exact lzipFinish_out db M st1 o st2 hi hf hfi
          | error e => rw [hfi] at h; simp at h

/-- C8 witness: the theorem applied to a concrete session (identity
encoder, one two-byte write, single member). -/
theorem C8_lzip_member_trailer_witness :
    ((lzipRun lzipIdEnc 10 12 none [[104, 105]]).getD
        ([], lzipNew 0 none)).1 =
      ((((lzipRun lzipIdEnc 10 12 none [[104, 105]]).getD
        ([], lzipNew 0 none)).2.members).map (renderMember 12)).flatten :=
  C8_lzip_member_trailer lzipIdEnc 10 12 none [[104, 105]] _ _ rfl

/-- C9: calling `finish` on an LZIP writer on which `finish` has already
completed returns the same inner sink and performs no further writes: the
second call yields the identical sink bytes and leaves the state exactly as
it was. -/
theorem lzipFinish_of_finished (M : LZMAEnc) (s : LZIPWriterState)
    (hf : s.finished = true) : lzipFinish M s = (.ok s.inner, s) := by
  unfold lzipFinish
  rw [if_pos hf]
  rfl

theorem C9_lzip_finish_idempotent (M : LZMAEnc) (st st1 : LZIPWriterState)
    (out : List Nat) (h : lzipFinish M st = (.ok out, st1)) :
    lzipFinish M st1 = (.ok out, st1) := by
  have hfin1 : st1.finished = true := by
    unfold lzipFinish at h
    by_cases hf : st.finished = true
    · rw [if_pos hf] at h
      have hb := congrArg Prod.snd h
      dsimp at hb
      rw [← hb]
      exact hf
    · rw [if_neg hf] at h
      have hb := congrArg Prod.snd h
      dsimp at hb
      rw [← hb]
  have hout : st1.inner = out := by
    unfold lzipFinish at h
    by_cases hf : st.finished = true
    · rw [if_pos hf] at h
      have ha := congrArg Prod.fst h
      have hb := congrArg Prod.snd h
      dsimp at ha hb
      injection ha with ha
      rw [← hb]
      exact ha
    · rw [if_neg hf] at h
      have ha := congrArg Prod.fst h
      have hb := congrArg Prod.snd h
      dsimp at ha hb
      injection ha with ha
      rw [← hb]
      exact ha
  rw [lzipFinish_of_finished M st1 hfin1, hout]

/-- C9 witness: the theorem applied to a concrete first `finish` on a fresh
writer; the second `finish` returns the same sink and state. -/
theorem C9_lzip_finish_idempotent_witness :
    lzipFinish lzipIdEnc (lzipFinish lzipIdEnc (lzipNew 5 none)).2 =
      (.ok (okD [] (lzipFinish lzipIdEnc (lzipNew 5 none)).1),
       (lzipFinish lzipIdEnc (lzipNew 5 none)).2) :=
  C9_lzip_finish_idempotent lzipIdEnc (lzipNew 5 none)
    (lzipFinish lzipIdEnc (lzipNew 5 none)).2
    (okD [] (lzipFinish lzipIdEnc (lzipNew 5 none)).1) rfl

/-- With the next chunk not deliverable and an error stored,
`get_next_compressed_chunk` takes the error, transitions to the `Error`
phase, and returns it — draining the slot. -/
theorem mtGetNext_error (fuel : Nat) (blocking : Bool) (st : MTState)
    (e : Error) (hf : 1 ≤ fuel) (he : st.errorStore = some e)
    (ho : mapLookup st.ooo st.nextWrite = none) :
    mtGetNext fuel blocking st =
      some (.error e, { st with errorStore := none, phase := .error }) := by
  obtain ⟨f, rfl⟩ : ∃ f, fuel = f + 1 := ⟨fuel - 1, by omega⟩
  simp only [mtGetNext, ho, he]

/-- With an error stored and no deliverable chunk, `send_work_unit` either
surfaces the stored error (draining the slot, `Error` phase), or succeeds
without touching the slot: trivially when no unit is pending, or by pushing
the unit when the queue is open and has room. -/
theorem mtSendWorkUnit_error (fuel : Nat) (st : MTState) (e : Error)
    (hf : 2 ≤ fuel) (he : st.errorStore = some e)
    (ho : mapLookup st.ooo st.nextWrite = none) :
    (∃ st', mtSendWorkUnit fuel st = some (.error e, st')
      ∧ st'.phase = .error ∧ st'.errorStore = none)
    ∨ (st.cwu = [] ∧ mtSendWorkUnit fuel st = some (.ok (), st))
    ∨ (st.queueClosed = false ∧
        mtSendWorkUnit fuel st = some (.ok (),
          { st with
              cwu := [],
              queue := st.queue ++ [(st.nextDispatch, st.cwu)],
              nextDispatch := st.nextDispatch + 1 })) := by
  obtain ⟨f, rfl⟩ : ∃ f, fuel = (f + 1) + 1 := ⟨fuel - 2, by omega⟩
  by_cases hc : st.cwu = []
  · right; left
    refine ⟨hc, ?_⟩
    simp only [mtSendWorkUnit]
    rw [if_pos hc]
  · by_cases hq : st.queue.length ≥ 4
    · left
      refine ⟨{ st with errorStore := none, phase := .error }, ?_, rfl, rfl⟩
      simp only [mtSendWorkUnit]
      rw [if_neg hc, if_pos hq,
        mtGetNext_error (f + 1) true st e (by omega) he ho]
    · by_cases hcl : st.queueClosed = true
      · left
        refine ⟨{ st with
            cwu := [],
            phase := .error,
            shutdown := true,
            errorStore := none }, ?_, rfl, rfl⟩
        simp only [mtSendWorkUnit]
        rw [if_neg hc, if_neg hq]
        simp [mtQueuePush, hcl, mtSetError, he]
      · right; right
        have hcl' : st.queueClosed = false := by
          cases hB : st.queueClosed
          · rfl
          · exact absurd hB hcl
        refine ⟨hcl', ?_⟩
        simp only [mtSendWorkUnit]
        rw [if_neg hc, if_neg hq]
        simp [mtQueuePush, hcl']

/-- C7 (amended): after a worker thread stores an error, every subsequent
`write` returns an error, and so do `flush` with work outstanding, `finish`
with work dispatched, and every chunk poll — but the originally stored
error is surfaced only by the first call that polls for chunks, which takes
it out of the slot and moves the writer to the `Error` phase; later `write`
calls fail with `InvalidInput` ("Cannot write after finishing") and later
polls with a substitute error, not the original. -/
theorem C7_mt_error_handling :
    (∀ (st : MTState) (buf : List Nat) (e : Error) (fuel : Nat),
        3 ≤ fuel → st.phase = .writing → st.errorStore = some e →
        mapLookup st.ooo st.nextWrite = none → buf ≠ [] →
        ∃ st', mtWrite fuel st buf = some (.error e, st')
          ∧ st'.phase = .error ∧ st'.errorStore = none)
    ∧ (∀ (st : MTState) (buf : List Nat) (fuel : Nat),
        st.phase = .error → buf ≠ [] →
        mtWrite fuel st buf =
          some (.error (.invalidInput "Cannot write after finishing"), st))
    ∧ (∀ (st : MTState) (e : Error) (fuel : Nat),
        2 ≤ fuel → st.errorStore = some e →
        mapLookup st.ooo st.nextWrite = none →
        st.nextWrite ≤ st.nextDispatch →
        (st.cwu ≠ [] ∨ st.nextWrite < st.nextDispatch) →
        ∃ st', mtFlush fuel st = some (.error e, st')
          ∧ st'.phase = .error ∧ st'.errorStore = none)
    ∧ (∀ (st : MTState) (e : Error) (fuel : Nat),
        2 ≤ fuel → st.errorStore = some e →
        mapLookup st.ooo st.nextWrite = none →
        (st.cwu ≠ [] ∨ 0 < st.nextDispatch) →
        ∃ st', mtFinish fuel st = some (.error e, st')
          ∧ st'.phase = .error ∧ st'.errorStore = none)
    ∧ (∀ (st : MTState) (fuel : Nat),
        1 ≤ fuel → st.phase = .error → st.errorStore = none →
        mapLookup st.ooo st.nextWrite = none →
        mtGetNext fuel true st =
          some (.error (.other "Compression failed with an unknown error"),
            { st with errorStore := none })) := by
  refine ⟨?_, ?_, ?_, ?_, ?_⟩
  · intro st buf e fuel hf hw he ho hb
    unfold mtWrite
    rw [if_neg hb, if_neg (show ¬ st.phase ≠ MTPhase.writing by simp [hw])]
    obtain ⟨f, rfl⟩ : ∃ f, fuel = f + 1 + 1 + 1 := ⟨fuel - 3, by omega⟩
    simp only [mtWriteLoop]
    rw [if_neg hb]
    have hacc_e : (mtAccept st buf).errorStore = some e := he
    have hacc_o :
        mapLookup (mtAccept st buf).ooo (mtAccept st buf).nextWrite = none :=
      ho
    by_cases hcond :
        (mtAccept st buf).cwu.length ≥ (mtAccept st buf).streamSize
    · rw [if_pos hcond]
      rcases mtSendWorkUnit_error (f + 1 + 1) (mtAccept st buf) e (by omega)
          hacc_e hacc_o with
        ⟨st', hs, hp, he'⟩ | ⟨hc2, hs⟩ | ⟨hcl, hs⟩
      · rw [hs]
        exact ⟨st', rfl, hp, he'⟩
      · rw [hs]
        dsimp only
        simp only [mtDrain]
        rw [mtGetNext_error (f + 1) false _ e (by omega) (by exact he)
          (by exact ho)]
        exact ⟨_, rfl, rfl, rfl⟩
      · rw [hs]
        dsimp only
        simp only [mtDrain]
        rw [mtGetNext_error (f + 1) false _ e (by omega) (by exact he)
          (by exact ho)]
        exact ⟨_, rfl, rfl, rfl⟩
    · rw [if_neg hcond]
      dsimp only
      simp only [mtDrain]
      rw [mtGetNext_error (f + 1) false _ e (by omega) (by exact he)
        (by exact ho)]
      exact ⟨_, rfl, rfl, rfl⟩
  · intro st buf fuel hp hb
    unfold mtWrite
    rw [if_neg hb, if_pos (show st.phase ≠ MTPhase.writing by
      rw [hp]; exact fun h => nomatch h)]
  · intro st e fuel hf he ho hnd hdisj
    obtain ⟨f, rfl⟩ : ∃ f, fuel = f + 1 + 1 := ⟨fuel - 2, by omega⟩
    unfold mtFlush
    by_cases hc : st.cwu = []
    · rw [if_pos hc]
      dsimp only
      have hlt : st.nextWrite < st.nextDispatch := by
        rcases hdisj with h | h
        · exact absurd hc h
        · exact h
      simp only [mtFlushLoop]
      rw [if_pos hlt, mtGetNext_error (f + 1) true st e (by omega) he ho]
      exact ⟨_, rfl, rfl, rfl⟩
    · rw [if_neg hc]
      rcases mtSendWorkUnit_error (f + 1 + 1) st e (by omega) he ho with
        ⟨st', hs, hp, he'⟩ | ⟨hc2, _⟩ | ⟨hcl, hs⟩
      · rw [hs]
        exact ⟨st', rfl, hp, he'⟩
      · exact absurd hc2 hc
      · rw [hs]
        dsimp only
        simp only [mtFlushLoop]
        rw [if_pos (show st.nextWrite < st.nextDispatch + 1 by omega)]
        rw [mtGetNext_error (f + 1) true _ e (by omega) (by exact he)
          (by exact ho)]
        exact ⟨_, rfl, rfl, rfl⟩
  · intro st e fuel hf he ho hdisj
    obtain ⟨f, rfl⟩ : ∃ f, fuel = f + 1 + 1 := ⟨fuel - 2, by omega⟩
    unfold mtFinish
    rcases mtSendWorkUnit_error (f + 1 + 1) st e (by omega) he ho with
      ⟨st', hs, hp, he'⟩ | ⟨hc2, hs⟩ | ⟨hcl, hs⟩
    · rw [hs]
      exact ⟨st', rfl, hp, he'⟩
    · rw [hs]
      dsimp only
      have h0 : ¬ st.nextDispatch = 0 := by
        rcases hdisj with h | h
        · exact absurd hc2 h
        · omega
      rw [if_neg h0]
      simp only [mtFinishLoop]
      rw [mtGetNext_error (f + 1) true _ e (by omega) (by exact he)
        (by exact ho)]
      exact ⟨_, rfl, rfl, rfl⟩
    · rw [hs]
      dsimp only
      rw [if_neg (show ¬ st.nextDispatch + 1 = 0 by omega)]
      simp only [mtFinishLoop]
      rw [mtGetNext_error (f + 1) true _ e (by omega) (by exact he)
        (by exact ho)]
      exact ⟨_, rfl, rfl, rfl⟩
  · intro st fuel hf hp he ho
    obtain ⟨f, rfl⟩ : ∃ f, fuel = f + 1 := ⟨fuel - 1, by omega⟩
    simp only [mtGetNext, ho, he, hp]

/-- C7 counterexample: from a state whose error slot holds the worker error
(`Other "worker failed"`), the first write surfaces that error, but the
second write returns a different error (`InvalidInput`, "Cannot write after
finishing") — so subsequent calls do not each surface the originally stored
worker error. -/
theorem C7_mt_error_counterexample :
    mtWrite 10 mtS0 [1] = some (.error (.other "worker failed"), mtS1)
    ∧ mtWrite 10 mtS1 [2] =
        some (.error (.invalidInput "Cannot write after finishing"), mtS1)
    ∧ Error.other "worker failed" ≠
        Error.invalidInput "Cannot write after finishing" := by
  refine ⟨by decide, by decide, by decide⟩

/-- C7 witness: the amended theorem's first conjunct applied at the
concrete post-worker-error state `mtS0`. -/
theorem C7_mt_error_handling_witness :
    ∃ st', mtWrite 10 mtS0 [1] = some (.error (.other "worker failed"), st')
      ∧ st'.phase = .error ∧ st'.errorStore = none :=
  C7_mt_error_handling.1 mtS0 [1] (.other "worker failed") 10
    (by omega) rfl rfl rfl (by decide)

/-- C10: with an expected uncompressed size `exp`, a write whose bytes would
push the cumulative input past `exp` fails with `InvalidInput` leaving the
writer state untouched (no byte consumed); a write staying within `exp`
succeeds and consumes the whole buffer; `finish` fails with `InvalidInput`
exactly when the total number of bytes written differs from `exp`; with no
expected size, writes always succeed and the finish check never fires. -/
theorem C10_lzma_writer_size_checks (st : LZMAWriterSizes) (buf : List Nat) :
    (∀ exp, st.expectedUncompressedSize = some exp →
      (exp < st.currentUncompressedSize + buf.length →
        lzmaWriterWrite st buf =
          (.error (.invalidInput
            "expected compressed size does not match actual compressed size"),
           st))
      ∧ (st.currentUncompressedSize + buf.length ≤ exp →
        lzmaWriterWrite st buf =
          (.ok buf.length,
           { st with
              currentUncompressedSize := st.currentUncompressedSize + buf.length,
              consumed := st.consumed ++ buf }))
      ∧ (exp ≠ st.currentUncompressedSize →
        lzmaWriterFinish st =
          .error (.invalidInput
            "expected compressed size does not match actual compressed size"))
      ∧ (exp = st.currentUncompressedSize → lzmaWriterFinish st = .ok ()))
    ∧ (st.expectedUncompressedSize = none →
        lzmaWriterWrite st buf =
          (.ok buf.length,
           { st with
              currentUncompressedSize := st.currentUncompressedSize + buf.length,
              consumed := st.consumed ++ buf })
        ∧ lzmaWriterFinish st = .ok ()) := by
  constructor
  · intro exp hexp
    refine ⟨fun hlt => ?_, fun hle => ?_, fun hne => ?_, fun heq => ?_⟩
    · simp [lzmaWriterWrite, hexp, hlt]
    · simp [lzmaWriterWrite, hexp, Nat.not_lt.mpr hle]
    · simp [lzmaWriterFinish, hexp, hne]
    · simp [lzmaWriterFinish, hexp, heq]
  · intro hnone
    exact ⟨by simp [lzmaWriterWrite, hnone], by simp [lzmaWriterFinish, hnone]⟩

/-- C10 witness: the theorem applied at a concrete writer with expected size
5, once for the overflowing write `[1,2,3,4,5,6]` and once for the matching
finish. -/
theorem C10_lzma_writer_size_checks_witness :
    lzmaWriterWrite ⟨0, some 5, []⟩ [1, 2, 3, 4, 5, 6] =
      (.error (.invalidInput
        "expected compressed size does not match actual compressed size"),
       ⟨0, some 5, []⟩)
    ∧ lzmaWriterFinish ⟨5, some 5, [9, 9, 9, 9, 9]⟩ = .ok () :=
  ⟨((C10_lzma_writer_size_checks ⟨0, some 5, []⟩ [1, 2, 3, 4, 5, 6]).1 5
      rfl).1 (by decide),
   ((C10_lzma_writer_size_checks ⟨5, some 5, [9, 9, 9, 9, 9]⟩ []).1 5
      rfl).2.2.2 rfl⟩

end LzmaRust
